import Mathlib

/-!
Verification of the lottery-stats analysis and API code.

The development shallowly embeds the Python sources:

* `lottery_analysis.py` (`analyze_overall_frequencies`, `analyze_position_frequencies`,
  `analyze_special_ball_frequencies`, `analyze_number_combination_frequencies`,
  `analyze_full_combination_frequencies`),
* `api_server.py` (the CSV-backed endpoints `check_combination`,
  `generate_optimized_combination`, `generate_random_combination`),
* `src/api/api_server.py` (the SQLite-backed endpoints `check_combination` and
  `generate_optimized_combination`),
* `mega_millions_analysis.py` (`MegaMillionsAnalyzer.check_combination`).

Draw histories are lists of records in data-frame row order.  Python floats are
modelled as exact rationals; draw dates are modelled as naturals ordered like
calendar dates.  Counters and dicts are modelled as association lists in
insertion order, which for a Counter built by a left-to-right scan is the order
of first occurrence.
-/

namespace LotteryStats

/-- Sorting of integer lists, as Python `sorted` on number lists.  Insertion sort is
used because, like Python `sorted`, it is stable. -/
def sortInts (l : List Int) : List Int := List.insertionSort (· ≤ ·) l

theorem sortInts_perm (l : List Int) : (sortInts l).Perm l := List.perm_insertionSort _ l

theorem sortInts_sorted (l : List Int) : List.Sorted (· ≤ ·) (sortInts l) :=
  List.sorted_insertionSort _ l

theorem sortInts_eq_of_perm {l l' : List Int} (h : l.Perm l') : sortInts l = sortInts l' :=
  List.eq_of_perm_of_sorted (((sortInts_perm l).trans h).trans (sortInts_perm l').symm)
    (sortInts_sorted l) (sortInts_sorted l')

theorem sortInts_idem (l : List Int) : sortInts (sortInts l) = sortInts l :=
  sortInts_eq_of_perm (sortInts_perm l)

theorem sortInts_length (l : List Int) : (sortInts l).length = l.length :=
  (sortInts_perm l).length_eq

theorem mem_sortInts {l : List Int} {n : Int} : n ∈ sortInts l ↔ n ∈ l :=
  (sortInts_perm l).mem_iff

/-- Fuelled helper for `dedupFirst`; structural recursion keeps it kernel-computable. -/
def dedupFirstAux : Nat → List Int → List Int
  | 0, _ => []
  | _ + 1, [] => []
  | fuel + 1, x :: xs => x :: dedupFirstAux fuel (xs.filter (fun y => y != x))

/-- Deduplication keeping the first occurrence of each element, in order.  This is the
iteration order of a Python `Counter`/`dict` built by one left-to-right pass. -/
def dedupFirst (l : List Int) : List Int := dedupFirstAux l.length l

theorem dedupFirstAux_congr :
    ∀ (f₁ f₂ : Nat) (l : List Int), l.length ≤ f₁ → l.length ≤ f₂ →
      dedupFirstAux f₁ l = dedupFirstAux f₂ l := by
  intro f₁
  induction f₁ with
  | zero =>
    intro f₂ l h₁ _
    have hl : l = [] := List.length_eq_zero.mp (Nat.le_zero.mp h₁)
    subst hl
    cases f₂ <;> rfl
  | succ f ih =>
    intro f₂ l h₁ h₂
    cases l with
    | nil => cases f₂ <;> rfl
    | cons x xs =>
      cases f₂ with
      | zero => exact absurd h₂ (by simp)
      | succ g =>
        simp only [dedupFirstAux]
        have hle : (xs.filter (fun y => y != x)).length ≤ xs.length :=
          List.length_filter_le _ _
        have hxf : xs.length ≤ f := Nat.le_of_succ_le_succ h₁
        have hxg : xs.length ≤ g := Nat.le_of_succ_le_succ h₂
        rw [ih g _ (le_trans hle hxf) (le_trans hle hxg)]

theorem dedupFirst_cons (x : Int) (xs : List Int) :
    dedupFirst (x :: xs) = x :: dedupFirst (xs.filter (fun y => y != x)) := by
  simp only [dedupFirst, List.length_cons, dedupFirstAux]
  exact congrArg _ (dedupFirstAux_congr _ _ _ (List.length_filter_le _ _) le_rfl)

theorem mem_dedupFirst (l : List Int) (n : Int) : n ∈ dedupFirst l ↔ n ∈ l := by
  have H : ∀ (k : Nat) (l : List Int), l.length ≤ k → ∀ n, (n ∈ dedupFirst l ↔ n ∈ l) := by
    intro k
    induction k with
    | zero =>
      intro l hl n
      have : l = [] := List.length_eq_zero.mp (Nat.le_zero.mp hl)
      subst this
      simp [dedupFirst, dedupFirstAux]
    | succ k ih =>
      intro l hl n
      cases l with
      | nil => simp [dedupFirst, dedupFirstAux]
      | cons x xs =>
        rw [dedupFirst_cons]
        by_cases hnx : n = x
        · subst hnx; simp
        · have hlen : (xs.filter (fun y => y != x)).length ≤ k :=
            le_trans (List.length_filter_le _ _) (Nat.le_of_succ_le_succ hl)
          rw [List.mem_cons, ih _ hlen n]
          simp [List.mem_filter, hnx]
  exact H l.length l le_rfl n

theorem nodup_dedupFirst (l : List Int) : (dedupFirst l).Nodup := by
  have H : ∀ (k : Nat) (l : List Int), l.length ≤ k → (dedupFirst l).Nodup := by
    intro k
    induction k with
    | zero =>
      intro l hl
      have : l = [] := List.length_eq_zero.mp (Nat.le_zero.mp hl)
      subst this
      simp [dedupFirst, dedupFirstAux]
    | succ k ih =>
      intro l hl
      cases l with
      | nil => simp [dedupFirst, dedupFirstAux]
      | cons x xs =>
        rw [dedupFirst_cons]
        have hlen : (xs.filter (fun y => y != x)).length ≤ k :=
          le_trans (List.length_filter_le _ _) (Nat.le_of_succ_le_succ hl)
        refine List.nodup_cons.mpr ⟨?_, ih _ hlen⟩
        rw [mem_dedupFirst]
        simp
  exact H l.length l le_rfl

theorem dedupFirst_perm_dedup (l : List Int) : (dedupFirst l).Perm l.dedup := by
  refine (List.perm_ext_iff_of_nodup (nodup_dedupFirst l) l.nodup_dedup).mpr ?_
  intro a
  rw [mem_dedupFirst, List.mem_dedup]

/-- Sum of multiplicities over the distinct elements recovers the length. -/
theorem sum_count_dedupFirst (l : List Int) :
    ((dedupFirst l).map (fun n => l.count n)).sum = l.length := by
  have hperm := (dedupFirst_perm_dedup l).map (fun n => l.count n)
  rw [hperm.sum_eq]
  exact List.sum_map_count_dedup_eq_length l

/-- Multiset of occurrences paired with counts, in first-occurrence order: the model of
a Python `Counter` built by one scan of `l`. -/
def counterList (l : List Int) : List (Int × Nat) :=
  (dedupFirst l).map (fun n => (n, l.count n))

/-- Percentage value `count / total * 100` as computed (in floating point) by
`lottery_analysis.py`; modelled exactly in `ℚ`. -/
def percQ (total : Nat) (count : Nat) : ℚ := (count : ℚ) / (total : ℚ) * 100

theorem percQ_le_iff (total c d : Nat) : percQ total c ≤ percQ total d ↔ (total = 0 ∨ c ≤ d) := by
  rcases Nat.eq_zero_or_pos total with h0 | hpos
  · subst h0
    simp [percQ]
  · have hq : (0 : ℚ) < (total : ℚ) := by exact_mod_cast hpos
    constructor
    · intro h
      right
      have := (mul_le_mul_right (by norm_num : (0:ℚ) < 100)).mp h
      have := (div_le_div_iff_of_pos_right hq).mp this
      exact_mod_cast this
    · intro h
      rcases h with h | h
      · omega
      · have hc : (c : ℚ) ≤ (d : ℚ) := by exact_mod_cast h
        exact (mul_le_mul_right (by norm_num : (0:ℚ) < 100)).mpr
          ((div_le_div_iff_of_pos_right hq).mpr hc)

/-- Comparison used by the descending sort in `generate_optimized_combination`
(`key=lambda x: x[1].percentage, reverse=True`): `x` comes no later than `y` when the
percentage of `y` is at most that of `x`. -/
def percGE (total : Nat) (x y : Int × Nat) : Prop := percQ total y.2 ≤ percQ total x.2

/-- Deciding `percGE` through the equivalent comparison of raw counts keeps the
relation kernel-computable (rational division via `Nat.gcd` does not reduce). -/
instance (total : Nat) : DecidableRel (percGE total) := fun x y =>
  decidable_of_iff (total = 0 ∨ y.2 ≤ x.2) (percQ_le_iff total y.2 x.2).symm

instance (total : Nat) : IsTotal (Int × Nat) (percGE total) :=
  ⟨fun a b => le_total (percQ total b.2) (percQ total a.2)⟩

instance (total : Nat) : IsTrans (Int × Nat) (percGE total) :=
  ⟨fun _ _ _ h h2 => le_trans h2 h⟩

/-- Strict percentage comparison used by Python `max(..., key=...)`, which replaces the
current best only on a strictly larger key. -/
def percGT (total : Nat) (x y : Int × Nat) : Prop := percQ total x.2 < percQ total y.2

theorem percQ_lt_iff (total c d : Nat) : percQ total c < percQ total d ↔ (total ≠ 0 ∧ c < d) := by
  constructor
  · intro h
    by_cases h0 : total = 0
    · have hdc : percQ total d ≤ percQ total c := (percQ_le_iff total d c).mpr (Or.inl h0)
      exact absurd h (not_lt_of_le hdc)
    · refine ⟨h0, ?_⟩
      by_contra hcd
      exact absurd ((percQ_le_iff total d c).mpr (Or.inr (Nat.le_of_not_lt hcd)))
        (not_le_of_lt h)
  · rintro ⟨h0, hcd⟩
    refine lt_of_le_of_ne ((percQ_le_iff total c d).mpr (Or.inr (le_of_lt hcd))) ?_
    intro heq
    have h1 : percQ total d ≤ percQ total c := le_of_eq heq.symm
    rcases (percQ_le_iff total d c).mp h1 with h | h
    · exact h0 h
    · omega

instance (total : Nat) : DecidableRel (percGT total) := fun x y =>
  decidable_of_iff (total ≠ 0 ∧ x.2 < y.2) (percQ_lt_iff total x.2 y.2).symm

/-! ### Draw records and combination indices (`lottery_analysis.py`) -/

/-- One historical draw as one data-frame row: draw date, the main numbers in the
stored left-to-right order, and the special ball (Mega Ball / Powerball). -/
structure Draw where
  date : Nat
  numbers : List Int
  special : Int
deriving DecidableEq, Repr

/-- Occurrence count of a sorted main-number key in `number_combination_frequencies`
(`analyze_number_combination_frequencies`: keys are `tuple(sorted(nums))`, values count
the rows producing the key; a key is present exactly when its count is positive). -/
def mainComboCount (hist : List Draw) (key : List Int) : Nat :=
  (hist.filter (fun d => decide (sortInts d.numbers = key))).length

/-- Occurrence count of a full-combination key in `full_combination_frequencies`
(`analyze_full_combination_frequencies`: keys are `tuple(sorted(nums) + [special])`). -/
def fullComboCount (hist : List Draw) (key : List Int) : Nat :=
  (hist.filter (fun d => decide (sortInts d.numbers ++ [d.special] = key))).length

/-! ### The CSV-backed `check_combination` endpoint (`api_server.py`) -/

/-- Validation failures of `check_combination`; each corresponds to one of the
`HTTPException(status_code=400, ...)` raises with its specific detail message. -/
inductive CheckError where
  | wrongCount
  | mainOutOfRange
  | specialOutOfRange
  | duplicateMains
deriving DecidableEq, Repr

/-- The `CombinationResponse` pydantic model. -/
structure CheckResponse where
  exists_ : Bool
  frequency : Nat
  dates : List Nat
  main_numbers : List Int
  special_ball : Option Int
deriving DecidableEq, Repr

/-- Outcome of a call to the endpoint: either a 400 validation error or a response. -/
inductive CheckOutcome where
  | err : CheckError → CheckOutcome
  | ok : CheckResponse → CheckOutcome
deriving DecidableEq, Repr

/-- Python truthiness of the optional special ball: `None` and `0` are falsy.  The
range guard reads `if combination.special_ball and (... < 1 or ... > max)`. -/
def truthySpecial : Option Int → Bool
  | none => false
  | some v => v != 0

/-- Main-number range guard `any(n < 1 or n > max_main for n in combination.numbers)`. -/
def mainRangeBad (maxMain : Int) (numbers : List Int) : Bool :=
  numbers.any (fun n => decide (n < 1) || decide (maxMain < n))

/-- Special-ball range guard; because of the truthiness test a supplied `0` is never
flagged. -/
def specialRangeBad (maxSpecial : Int) (special : Option Int) : Bool :=
  truthySpecial special &&
    (match special with
     | none => false
     | some v => decide (v < 1) || decide (maxSpecial < v))

/-- Date-collection step of `check_combination`: a row contributes its date when its
sorted numbers equal the query key and, if a special ball was supplied, the row's
special ball equals it.  The row's special is only read under the same truthiness
test (`int(row[...]) if combination.special_ball else None`), so for the falsy query
value `0` the comparison is `None == 0`, which never holds. -/
def dateRowMatches (sortedQ : List Int) (special : Option Int) (d : Draw) : Bool :=
  decide (sortInts d.numbers = sortedQ) &&
    (match special with
     | none => true
     | some sb => if sb = 0 then false else decide (d.special = sb))

/-- Dates collected by iterating the data frame in row order. -/
def datesFor (hist : List Draw) (sortedQ : List Int) (special : Option Int) : List Nat :=
  (hist.filter (dateRowMatches sortedQ special)).map (fun d => d.date)

/-- The CSV-backed `check_combination` endpoint of `api_server.py`.  The exactly-5
requirement is enforced before the handler by the pydantic `conlist(int, min_items=5,
max_items=5)` on `CombinationRequest.numbers`; the remaining guards follow the
handler's order: main range, special range, distinctness, then lookup of the
main-only or full combination key. -/
def check (hist : List Draw) (maxMain maxSpecial : Int)
    (numbers : List Int) (special : Option Int) : CheckOutcome :=
  if numbers.length ≠ 5 then .err .wrongCount
  else if mainRangeBad maxMain numbers then .err .mainOutOfRange
  else if specialRangeBad maxSpecial special then .err .specialOutOfRange
  else if numbers.dedup.length ≠ 5 then .err .duplicateMains
  else
    let sortedQ := sortInts numbers
    match special with
    | none =>
      let freq := mainComboCount hist sortedQ
      if freq ≠ 0 then
        .ok ⟨true, freq, datesFor hist sortedQ none, sortedQ, none⟩
      else
        .ok ⟨false, 0, [], sortedQ, none⟩
    | some sb =>
      let freq := fullComboCount hist (sortedQ ++ [sb])
      if freq ≠ 0 then
        .ok ⟨true, freq, datesFor hist sortedQ (some sb), sortedQ, some sb⟩
      else
        .ok ⟨false, 0, [], sortedQ, some sb⟩

/-! ### The legacy `MegaMillionsAnalyzer.check_combination` (`mega_millions_analysis.py`) -/

/-- Occurrence count in the analyzer's `combination_frequencies` Counter, whose keys
are `tuple(numbers + [megaball])` in the stored, unsorted row order. -/
def mmComboCount (hist : List Draw) (key : List Int) : Nat :=
  (hist.filter (fun d => decide (d.numbers ++ [d.special] = key))).length

/-- Result dictionary of `MegaMillionsAnalyzer.check_combination`. -/
structure MmCheckResult where
  exists_ : Bool
  frequency : Nat
  dates : List Nat
deriving DecidableEq, Repr

/-- The analyzer's `check_combination`: no sorting, no range validation; `none` models
the error dictionary returned when fewer or more than 5 numbers are supplied.  The
lookup key is the raw `tuple(numbers + [megaball])`. -/
def mmCheck (hist : List Draw) (numbers : List Int) (megaball : Int) :
    Option MmCheckResult :=
  if numbers.length ≠ 5 then none
  else
    let freq := mmComboCount hist (numbers ++ [megaball])
    if freq ≠ 0 then
      some ⟨true, freq,
        (hist.filter (fun d => decide (d.numbers ++ [d.special] = numbers ++ [megaball]))).map
          (fun d => d.date)⟩
    else
      some ⟨false, 0, []⟩

/-! ### The SQLite-backed `check_combination` endpoint (`src/api/api_server.py`) -/

/-- One row of the SQLite `draws` table for one lottery type: `draw_date`, the stored
`winning_numbers` token list, and `special_ball`. -/
structure DbRow where
  date : Nat
  nums : List Int
  special : Int
deriving DecidableEq, Repr

/-- The query `SELECT COUNT(*) FROM draws WHERE winning_numbers = ? AND special_ball = ?`. -/
def dbDrawCount (rows : List DbRow) (mains : List Int) (sb : Int) : Nat :=
  (rows.filter (fun r => decide (r.nums = mains) && decide (r.special = sb))).length

/-- Rows ordered by `ORDER BY draw_date DESC` (newest first). -/
def rowsByDateDesc (rows : List DbRow) : List DbRow :=
  List.insertionSort (fun a b => b.date ≤ a.date) rows

/-- Response of the DB-backed endpoint, including the extra `matches` detail list
(pairs of date and that row's own special ball; the prize field is always absent). -/
structure DbCheckResponse where
  exists_ : Bool
  frequency : Nat
  dates : List Nat
  main_numbers : List Int
  special_ball : Option Int
  matchRows : Option (List (Nat × Int))
deriving DecidableEq, Repr

/-- Main-number matches fetched by the DB-backed `check_combination`:
`SELECT ... FROM draws WHERE ... winning_numbers = ? ORDER BY draw_date DESC` with the
sorted query numbers as the bound string. -/
def matchesOf (rows : List DbRow) (numbers : List Int) : List DbRow :=
  (rowsByDateDesc rows).filter (fun r => decide (r.nums = sortInts numbers))

/-- The `exact_match_found` flag: set while walking the matches when a special ball
was supplied and some match carries exactly it. -/
def dbExactFound (rows : List DbRow) (numbers : List Int) : Option Int → Bool
  | none => false
  | some s => (matchesOf rows numbers).any (fun r => decide (r.special = s))

/-- The DB-backed `check_combination`: select every row whose stored `winning_numbers`
equal the sorted query numbers, newest first.  If a special ball was supplied and no
selected row carries it, report absence; otherwise report existence with
`frequency = len(matches_list)` and the dates of all main-number matches. -/
def dbCheck (rows : List DbRow) (numbers : List Int) (special : Option Int) :
    DbCheckResponse :=
  if (matchesOf rows numbers).length = 0 then
    ⟨false, 0, [], sortInts numbers, special, none⟩
  else if special.isSome && !dbExactFound rows numbers special then
    ⟨false, 0, [], sortInts numbers, special, none⟩
  else
    ⟨true, (matchesOf rows numbers).length,
      (matchesOf rows numbers).map (fun r => r.date), sortInts numbers, special,
      some ((matchesOf rows numbers).map (fun r => (r.date, r.special)))⟩

/-! ### The CSV-backed `generate_optimized_combination` (`api_server.py`) -/

/-- Numbers seen at 1-based position `p`, in row order: `enumerate(numbers, 1)` over
the raw `number_list` of each row (rows shorter than `p` contribute nothing). -/
def positionList (hist : List Draw) (p : Nat) : List Int :=
  hist.filterMap (fun d => d.numbers[p - 1]?)

/-- The per-position Counter of `analyze_position_frequencies`: number and occurrence
count, in first-occurrence order.  The recorded percentage is `count / total_draws *
100`, recovered by `percQ hist.length` from the stored count. -/
def positionTable (hist : List Draw) (p : Nat) : List (Int × Nat) :=
  counterList (positionList hist p)

/-- The special-ball Counter of `analyze_special_ball_frequencies`. -/
def specialTable (hist : List Draw) : List (Int × Nat) :=
  counterList (hist.map (fun d => d.special))

/-- Python stable `sorted(..., key=lambda x: x[1].percentage, reverse=True)`. -/
def sortByPercDesc (total : Nat) (tbl : List (Int × Nat)) : List (Int × Nat) :=
  List.insertionSort (percGE total) tbl

/-- Inner selection loop of `generate_optimized_combination`: the first entry of the
descending-sorted table whose number is not already selected and lies in
`1..max_main`. -/
def pickEligible (maxMain : Int) (selected : List Int) (tbl : List (Int × Nat)) :
    Option (Int × Nat) :=
  tbl.find? (fun e => !selected.contains e.1 && decide (1 ≤ e.1) && decide (e.1 ≤ maxMain))

/-- Position loop of `generate_optimized_combination` over positions 1..5, returning
the selected numbers and the recorded `position_percentages`. -/
def greedyPick (hist : List Draw) (maxMain : Int) : List Int × List (Nat × ℚ) :=
  [1, 2, 3, 4, 5].foldl
    (fun acc p =>
      match pickEligible maxMain acc.1 (sortByPercDesc hist.length (positionTable hist p)) with
      | some e => (acc.1 ++ [e.1], acc.2 ++ [(p, percQ hist.length e.2)])
      | none => acc)
    ([], [])

/-- Python `max(items, key=lambda x: x[1].percentage)`: the first element of maximal
key (a later element replaces the current best only when strictly greater); `none`
models the `ValueError` raised on an empty sequence. -/
def pyMaxPerc (total : Nat) : List (Int × Nat) → Option (Int × Nat)
  | [] => none
  | x :: xs => some (xs.foldl (fun best cand => if percGT total best cand then cand else best) x)

/-- Integer range `range(1, hi + 1)`, that is `[1, 2, ..., hi]`. -/
def intRange1 (hi : Int) : List Int := (List.range hi.toNat).map (fun i => (i : Int) + 1)

/-- Stage-1 repair scan: try each candidate for the last slot in ascending order.  The
`num not in optimized_numbers` test is made against the current list, whose last slot
already holds the previously tried candidate, exactly as the Python loop mutates
`optimized_numbers[-1]` in place.  Returns the successful list (first whose full key
is absent), or `none` together with the final mutated list on exhaustion. -/
def stage1Scan (hist : List Draw) (special : Int) :
    List Int → List Int → Option (List Int) × List Int
  | cur, [] => (none, cur)
  | cur, num :: rest =>
    if cur.contains num then stage1Scan hist special cur rest
    else
      let cur2 := cur.dropLast ++ [num]
      if fullComboCount hist (sortInts cur2 ++ [special]) = 0 then (some cur2, cur2)
      else stage1Scan hist special cur2 rest

/-- Stage-2 repair scan: try each special-ball value in ascending order, skipping the
original, until the full key built from the (restored) main numbers is absent. -/
def stage2Scan (hist : List Draw) (mains : List Int) (origSpecial : Int) :
    List Int → Option Int
  | [] => none
  | num :: rest =>
    if num = origSpecial then stage2Scan hist mains origSpecial rest
    else if fullComboCount hist (sortInts mains ++ [num]) = 0 then some num
    else stage2Scan hist mains origSpecial rest

/-- The `GeneratedCombinationResponse` pydantic model. -/
structure GenResult where
  main_numbers : List Int
  special_ball : Int
  position_percentages : List (Nat × ℚ)
  is_unique : Bool

/-- The CSV-backed `generate_optimized_combination` endpoint.  `none` models the 500
raised when the special-ball table is empty (`max` of an empty sequence).  Histories
whose rows do not all carry 5 numbers can make the Python repair loop fault on an
empty `optimized_numbers`; the claims only concern well-formed histories, where the
model agrees with the code. -/
def generateOptimized (hist : List Draw) (maxMain maxSpecial : Int) : Option GenResult :=
  let picks := greedyPick hist maxMain
  let optimized := picks.1
  match pyMaxPerc hist.length (specialTable hist) with
  | none => none
  | some sbe =>
    let special := sbe.1
    if fullComboCount hist (sortInts optimized ++ [special]) = 0 then
      some ⟨sortInts optimized, special, picks.2, true⟩
    else
      match (stage1Scan hist special optimized (intRange1 maxMain)).1 with
      | some cur2 => some ⟨sortInts cur2, special, picks.2, true⟩
      | none =>
        match stage2Scan hist optimized special (intRange1 maxSpecial) with
        | some sb2 => some ⟨sortInts optimized, sb2, picks.2, true⟩
        | none => some ⟨sortInts optimized, special, picks.2, false⟩

/-! ### The SQLite-backed `generate_optimized_combination` (`src/api/api_server.py`) -/

/-- Per-position eligibility scan over a `position_frequencies` query result (already
ordered by `frequency DESC`), carrying the stored percentage column. -/
def pickEligibleDb (maxMain : Int) (selected : List Int) (tbl : List (Int × ℚ)) :
    Option (Int × ℚ) :=
  tbl.find? (fun e => !selected.contains e.1 && decide (1 ≤ e.1) && decide (e.1 ≤ maxMain))

/-- Position loop of the DB-backed generator; table `i` of the input list is the query
result for position `i + 1`. -/
def greedyPickDb (maxMain : Int) (posTables : List (List (Int × ℚ))) :
    List Int × List (Nat × ℚ) :=
  posTables.enum.foldl
    (fun acc it =>
      match pickEligibleDb maxMain acc.1 it.2 with
      | some e => (acc.1 ++ [e.1], acc.2 ++ [(it.1 + 1, e.2)])
      | none => acc)
    ([], [])

/-- Stage-1 repair scan of the DB-backed generator; the uniqueness test recomputes
`main_numbers_str` from the mutated list on every tried candidate.  On exhaustion the
final mutated list is returned: its sorted form is the value `main_numbers_str` holds
when stage 2 begins. -/
def stage1ScanDb (rows : List DbRow) (special : Int) :
    List Int → List Int → Option (List Int) × List Int
  | cur, [] => (none, cur)
  | cur, num :: rest =>
    if cur.contains num then stage1ScanDb rows special cur rest
    else
      let cur2 := cur.dropLast ++ [num]
      if dbDrawCount rows (sortInts cur2) special = 0 then (some cur2, cur2)
      else stage1ScanDb rows special cur2 rest

/-- Stage-2 repair scan of the DB-backed generator: the queried key pairs each
candidate special ball with `main_numbers_str` as left by stage 1 (the stale string),
not with the restored main numbers. -/
def stage2ScanDb (rows : List DbRow) (staleStr : List Int) (origSpecial : Int) :
    List Int → Option Int
  | [] => none
  | num :: rest =>
    if num = origSpecial then stage2ScanDb rows staleStr origSpecial rest
    else if dbDrawCount rows staleStr num = 0 then some num
    else stage2ScanDb rows staleStr origSpecial rest

/-- Result of the DB-backed generator. -/
structure DbGenResult where
  main_numbers : List Int
  special_ball : Int
  position_percentages : List (Nat × ℚ)
  is_unique : Bool

/-- The DB-backed `generate_optimized_combination` endpoint.  Inputs model the query
results it reads: the five per-position frequency tables (ordered `frequency DESC`),
the special-ball numbers (position 6, ordered `frequency DESC`; only the head is
fetched), and the `draws` rows.  After a failed stage 1 the code restores
`optimized_numbers[-1] = original_last` but does not rebuild `main_numbers_str`, so
stage 2 queries the stale string while the response carries the restored numbers. -/
def generateOptimizedDb (posTables : List (List (Int × ℚ))) (specials : List Int)
    (rows : List DbRow) (maxMain maxSpecial : Int) : Option DbGenResult :=
  let picks := greedyPickDb maxMain posTables
  let optimized := picks.1
  match specials.head? with
  | none => none
  | some special =>
    if dbDrawCount rows (sortInts optimized) special = 0 then
      some ⟨sortInts optimized, special, picks.2, true⟩
    else
      match stage1ScanDb rows special optimized (intRange1 maxMain) with
      | (some cur2, _) => some ⟨sortInts cur2, special, picks.2, true⟩
      | (none, finalCur) =>
        let staleStr := sortInts finalCur
        match stage2ScanDb rows staleStr special (intRange1 maxSpecial) with
        | some sb2 => some ⟨sortInts optimized, sb2, picks.2, true⟩
        | none => some ⟨sortInts optimized, special, picks.2, false⟩

/-! ### The CSV-backed `generate_random_combination` (`api_server.py`) -/

/-- Response of `generate_random_combination`. -/
structure RandResult where
  main_numbers : List Int
  special_ball : Int
  is_unique : Bool
deriving DecidableEq, Repr

/-- Outcome of the uniform generator: a response, or the 500 raised after
`max_attempts` collisions (`Could not generate a unique combination ...`). -/
inductive RandOutcome where
  | exhausted : RandOutcome
  | ok : RandResult → RandOutcome
deriving DecidableEq, Repr

/-- Rejection-sampling loop of `generate_random_combination`.  The random draws
`random.sample(range(1, max_main + 1), 5)` and `random.randint(1, max_special)` are
abstracted as an oracle `sampler` indexed by the attempt number; attempt `i` yields
`(main_numbers, special_ball)`. -/
def randLoop (hist : List Draw) (sampler : Nat → List Int × Int) :
    Nat → Nat → RandOutcome
  | _, 0 => .exhausted
  | i, fuel + 1 =>
    let cand := sampler i
    if fullComboCount hist (sortInts cand.1 ++ [cand.2]) = 0 then
      .ok ⟨sortInts cand.1, cand.2, true⟩
    else randLoop hist sampler (i + 1) fuel

/-- The `generate_random_combination` endpoint with its bound `max_attempts = 100`
left as a parameter. -/
def generateRandom (hist : List Draw) (sampler : Nat → List Int × Int)
    (maxAttempts : Nat) : RandOutcome :=
  randLoop hist sampler 0 maxAttempts

/-! ### Overall frequencies (`analyze_overall_frequencies`) -/

/-- The `FrequencyStats` dataclass. -/
structure FreqStats where
  count : Nat
  percentage : ℚ
deriving DecidableEq, Repr

/-- Concatenation of every row of `number_list` (`all_numbers`). -/
def allMainNumbers (hist : List Draw) : List Int :=
  (hist.map (fun d => d.numbers)).flatten

/-- The overall-frequency table: for each number seen in any main slot, its total
occurrence count and `percentage = count / (total_draws * 5) * 100`
(`self.total_numbers = self.total_draws * 5`). -/
def overallFrequencies (hist : List Draw) : List (Int × FreqStats) :=
  (dedupFirst (allMainNumbers hist)).map
    (fun n => (n, ⟨(allMainNumbers hist).count n,
                   percQ (hist.length * 5) ((allMainNumbers hist).count n)⟩))

/-! ### Helper lemmas about validation and lookup -/

theorem mainRangeBad_false {maxMain : Int} {numbers : List Int}
    (h : ∀ n ∈ numbers, 1 ≤ n ∧ n ≤ maxMain) : mainRangeBad maxMain numbers = false := by
  rw [mainRangeBad, List.any_eq_false]
  intro n hn
  have hn2 := h n hn
  simp only [Bool.or_eq_true, decide_eq_true_eq, not_or]
  omega

theorem specialRangeBad_false_of_mem {maxSpecial sb : Int}
    (h1 : 1 ≤ sb) (h2 : sb ≤ maxSpecial) :
    specialRangeBad maxSpecial (some sb) = false := by
  simp only [specialRangeBad, truthySpecial, Bool.and_eq_false_iff]
  right
  simp only [Bool.or_eq_false_iff, decide_eq_false_iff_not]
  omega

theorem specialRangeBad_false_of_zero (maxSpecial : Int) :
    specialRangeBad maxSpecial (some 0) = false := by
  simp [specialRangeBad, truthySpecial]

theorem append_singleton_inj {a b : List Int} {x y : Int}
    (h : a ++ [x] = b ++ [y]) : x = y := by
  have h2 := congrArg List.reverse h
  simp only [List.reverse_append, List.reverse_singleton, List.singleton_append] at h2
  exact (List.cons.injEq _ _ _ _ ▸ h2).1

/-- Unfolding of `check` on an input passing every validation step, with a special
ball supplied. -/
theorem check_valid_some (hist : List Draw) (maxMain maxSpecial : Int)
    (numbers : List Int) (sb : Int)
    (hlen : numbers.length = 5)
    (hdup : numbers.dedup.length = 5)
    (hrange : ∀ n ∈ numbers, 1 ≤ n ∧ n ≤ maxMain)
    (hsbok : specialRangeBad maxSpecial (some sb) = false) :
    check hist maxMain maxSpecial numbers (some sb) =
      (if fullComboCount hist (sortInts numbers ++ [sb]) ≠ 0 then
        CheckOutcome.ok ⟨true, fullComboCount hist (sortInts numbers ++ [sb]),
          datesFor hist (sortInts numbers) (some sb), sortInts numbers, some sb⟩
      else
        CheckOutcome.ok ⟨false, 0, [], sortInts numbers, some sb⟩) := by
  unfold check
  rw [if_neg (by simp [hlen]), if_neg (by simp [mainRangeBad_false hrange]),
    if_neg (by simp [hsbok]), if_neg (by simp [hdup])]

/-- A valid query whose full key is absent reports non-existence. -/
theorem check_full_absent (hist : List Draw) (maxMain maxSpecial : Int)
    (numbers : List Int) (sb : Int)
    (hlen : numbers.length = 5)
    (hdup : numbers.dedup.length = 5)
    (hrange : ∀ n ∈ numbers, 1 ≤ n ∧ n ≤ maxMain)
    (hsbok : specialRangeBad maxSpecial (some sb) = false)
    (habs : fullComboCount hist (sortInts numbers ++ [sb]) = 0) :
    check hist maxMain maxSpecial numbers (some sb) =
      .ok ⟨false, 0, [], sortInts numbers, some sb⟩ := by
  rw [check_valid_some hist maxMain maxSpecial numbers sb hlen hdup hrange hsbok,
    if_neg (by simp [habs])]

/-- A valid query whose full key is present reports existence with the index count and
the dates collected in row order. -/
theorem check_full_present (hist : List Draw) (maxMain maxSpecial : Int)
    (numbers : List Int) (sb : Int)
    (hlen : numbers.length = 5)
    (hdup : numbers.dedup.length = 5)
    (hrange : ∀ n ∈ numbers, 1 ≤ n ∧ n ≤ maxMain)
    (hsbok : specialRangeBad maxSpecial (some sb) = false)
    (hpres : fullComboCount hist (sortInts numbers ++ [sb]) ≠ 0) :
    check hist maxMain maxSpecial numbers (some sb) =
      .ok ⟨true, fullComboCount hist (sortInts numbers ++ [sb]),
        datesFor hist (sortInts numbers) (some sb), sortInts numbers, some sb⟩ := by
  rw [check_valid_some hist maxMain maxSpecial numbers sb hlen hdup hrange hsbok,
    if_pos hpres]

/-- With a nonzero special ball supplied, the collected dates are exactly those of the
rows matching the full combination, in row order. -/
theorem datesFor_pos_special (hist : List Draw) (sortedQ : List Int) {sb : Int}
    (hsb : sb ≠ 0) :
    datesFor hist sortedQ (some sb) =
      (hist.filter (fun d =>
        decide (sortInts d.numbers = sortedQ) && decide (d.special = sb))).map
        (fun d => d.date) := by
  unfold datesFor
  congr 1
  apply List.filter_congr
  intro d _
  simp [dateRowMatches, hsb]

theorem perm_any_eq {l l2 : List Int} (h : l.Perm l2) (p : Int → Bool) :
    l.any p = l2.any p := by
  cases ha : l.any p with
  | false =>
    rw [List.any_eq_false] at ha
    exact (List.any_eq_false.mpr (fun x hx => ha x (h.mem_iff.mpr hx))).symm
  | true =>
    rw [List.any_eq_true] at ha
    obtain ⟨x, hx, hpx⟩ := ha
    exact (List.any_eq_true.mpr ⟨x, h.mem_iff.mp hx, hpx⟩).symm

/-- In a list sorted by `r`, the first element satisfying a predicate is `r`-above
every element satisfying it. -/
theorem find?_sorted_max {α : Type} {r : α → α → Prop} {q : α → Bool} :
    ∀ {l : List α} {a : α}, List.Pairwise r l → l.find? q = some a →
      ∀ b ∈ l, q b = true → r a b ∨ a = b := by
  intro l
  induction l with
  | nil => intro a _ hf; simp at hf
  | cons x xs ih =>
    intro a hp hf b hb hqb
    rw [List.pairwise_cons] at hp
    by_cases hqx : q x = true
    · rw [List.find?_cons_of_pos _ hqx] at hf
      have hax : a = x := by injection hf with h; exact h.symm
      subst hax
      rcases List.mem_cons.mp hb with hbx | hbxs
      · exact Or.inr hbx.symm
      · exact Or.inl (hp.1 b hbxs)
    · rw [List.find?_cons_of_neg _ (by simp [hqx])] at hf
      rcases List.mem_cons.mp hb with hbx | hbxs
      · subst hbx; exact absurd hqb hqx
      · exact ih hp.2 hf b hbxs hqb

theorem randLoop_exhausted (hist : List Draw) (sampler : Nat → List Int × Int) :
    ∀ (fuel i : Nat),
      (∀ j, i ≤ j → j < i + fuel →
        fullComboCount hist (sortInts (sampler j).1 ++ [(sampler j).2]) ≠ 0) →
      randLoop hist sampler i fuel = .exhausted := by
  intro fuel
  induction fuel with
  | zero => intro i _; rfl
  | succ f ih =>
    intro i h
    show (if fullComboCount hist (sortInts (sampler i).1 ++ [(sampler i).2]) = 0 then _
          else randLoop hist sampler (i + 1) f) = _
    rw [if_neg (h i le_rfl (by omega))]
    exact ih (i + 1) (fun j h1 h2 => h j (by omega) (by omega))

theorem randLoop_congr (hist : List Draw) (s1 s2 : Nat → List Int × Int) :
    ∀ (fuel i : Nat), (∀ j, i ≤ j → j < i + fuel → s1 j = s2 j) →
      randLoop hist s1 i fuel = randLoop hist s2 i fuel := by
  intro fuel
  induction fuel with
  | zero => intro i _; rfl
  | succ f ih =>
    intro i h
    show (if fullComboCount hist (sortInts (s1 i).1 ++ [(s1 i).2]) = 0 then
            RandOutcome.ok ⟨sortInts (s1 i).1, (s1 i).2, true⟩
          else randLoop hist s1 (i + 1) f) =
         (if fullComboCount hist (sortInts (s2 i).1 ++ [(s2 i).2]) = 0 then
            RandOutcome.ok ⟨sortInts (s2 i).1, (s2 i).2, true⟩
          else randLoop hist s2 (i + 1) f)
    rw [h i le_rfl (by omega)]
    by_cases hc : fullComboCount hist (sortInts (s2 i).1 ++ [(s2 i).2]) = 0
    · rw [if_pos hc, if_pos hc]
    · rw [if_neg hc, if_neg hc]
      exact ih (i + 1) (fun j h1 h2 => h j (by omega) (by omega))

theorem randLoop_ok (hist : List Draw) (sampler : Nat → List Int × Int) :
    ∀ (fuel i : Nat) (r : RandResult), randLoop hist sampler i fuel = .ok r →
      ∃ j, r = ⟨sortInts (sampler j).1, (sampler j).2, true⟩ ∧
        fullComboCount hist (sortInts (sampler j).1 ++ [(sampler j).2]) = 0 := by
  intro fuel
  induction fuel with
  | zero => intro i r h; exact absurd h (by simp [randLoop])
  | succ f ih =>
    intro i r h
    rw [show randLoop hist sampler i (f + 1) =
        (if fullComboCount hist (sortInts (sampler i).1 ++ [(sampler i).2]) = 0 then
          RandOutcome.ok ⟨sortInts (sampler i).1, (sampler i).2, true⟩
        else randLoop hist sampler (i + 1) f) from rfl] at h
    by_cases hc : fullComboCount hist (sortInts (sampler i).1 ++ [(sampler i).2]) = 0
    · rw [if_pos hc] at h
      injection h with h2
      exact ⟨i, h2.symm, hc⟩
    · rw [if_neg hc] at h
      exact ih (i + 1) r h

/-- A full-combination key ending in `0` is absent from any history whose special
balls are all positive. -/
theorem fullComboCount_zero_special (hist : List Draw) (q : List Int)
    (hhist : ∀ d ∈ hist, 1 ≤ d.special) :
    fullComboCount hist (q ++ [0]) = 0 := by
  unfold fullComboCount
  rw [List.length_eq_zero, List.filter_eq_nil_iff]
  intro d hd
  simp only [decide_eq_true_eq]
  intro heq
  have h0 : d.special = 0 := append_singleton_inj heq
  have := hhist d hd
  omega

/-! ### Concrete fixtures used by witnesses and counterexamples -/

/-- The three-draw scenario of the specification: main numbers `[1,2,3,4,5]` twice and
`[1,2,3,4,6]` once, special balls `7, 7, 8`, dates `1, 2, 3` (oldest to newest). -/
def hist3 : List Draw := [⟨1, [1,2,3,4,5], 7⟩, ⟨2, [1,2,3,4,5], 7⟩, ⟨3, [1,2,3,4,6], 8⟩]

/-- History exhibiting a percentage tie at position 1: numbers `5` (row 1) and `3`
(row 2) and `6` (row 3) each appear once at position 1. -/
def hC3 : List Draw := [⟨1, [5,11,21,31,41], 7⟩, ⟨2, [3,12,22,32,42], 8⟩, ⟨3, [6,13,23,33,42], 8⟩]

/-- One-draw history whose row stores its numbers as `[1,2,3,4,5]`. -/
def h6 : List Draw := [⟨10, [1,2,3,4,5], 7⟩]

/-- Two stored draws sharing main numbers `[1,2,3,4,5]` with special balls 7 and 8. -/
def rows2 : List DbRow := [⟨1, [1,2,3,4,5], 7⟩, ⟨2, [1,2,3,4,5], 8⟩]

/-- Position-frequency tables whose eligible picks are `1..5` in order. -/
def exPos : List (List (Int × ℚ)) := [[(1, 50)], [(2, 50)], [(3, 50)], [(4, 50)], [(5, 50)]]

/-- Draws making stage 1 of the DB-backed repair exhaust (with `max_main = 6` the only
candidate is 6) and leaving `([1,2,3,4,5], 2)` present in history. -/
def exRows : List DbRow := [⟨1, [1,2,3,4,5], 1⟩, ⟨2, [1,2,3,4,6], 1⟩, ⟨3, [1,2,3,4,5], 2⟩]

/-! ### Claim C1 -/

/-- Claim C1: when a special ball is supplied and the exact full combination never occurred
in the history, `check` reports `exists = false` — the main-only index is never
consulted on this path, so main-number matches with a different special ball cannot
make the combination count as existing. -/
theorem claim1_special_mismatch_not_found (hist : List Draw) (maxMain maxSpecial : Int)
    (numbers : List Int) (sb : Int)
    (hlen : numbers.length = 5)
    (hdup : numbers.dedup.length = 5)
    (hrange : ∀ n ∈ numbers, 1 ≤ n ∧ n ≤ maxMain)
    (hsb1 : 1 ≤ sb) (hsb2 : sb ≤ maxSpecial)
    (habs : fullComboCount hist (sortInts numbers ++ [sb]) = 0) :
    check hist maxMain maxSpecial numbers (some sb) =
      .ok ⟨false, 0, [], sortInts numbers, some sb⟩ :=
  check_full_absent hist maxMain maxSpecial numbers sb hlen hdup hrange
    (specialRangeBad_false_of_mem hsb1 hsb2) habs

/-- Witness for claim C1 at the specification scenario: `[1,2,3,4,5]` matches two draws on
main numbers alone, yet with special ball 8 the query reports non-existence. -/
theorem claim1_witness :
    mainComboCount hist3 (sortInts [1,2,3,4,5]) ≠ 0 ∧
    check hist3 10 10 [1,2,3,4,5] (some 8) =
      .ok ⟨false, 0, [], sortInts [1,2,3,4,5], some 8⟩ :=
  ⟨by decide,
   claim1_special_mismatch_not_found hist3 10 10 [1,2,3,4,5] 8
     (by decide) (by decide) (by decide) (by decide) (by decide) (by decide)⟩

/-! ### Claim C7 -/

theorem allMainNumbers_length (hist : List Draw)
    (h5 : ∀ d ∈ hist, d.numbers.length = 5) :
    (allMainNumbers hist).length = hist.length * 5 := by
  induction hist with
  | nil => rfl
  | cons d tl ih =>
    have hd : d.numbers.length = 5 := h5 d (by simp)
    have htl : ∀ x ∈ tl, x.numbers.length = 5 := fun x hx => h5 x (by simp [hx])
    show (d.numbers ++ allMainNumbers tl).length = (tl.length + 1) * 5
    rw [List.length_append, hd, ih htl]
    ring

/-- Claim C7: on a non-empty history of 5-number rows, every entry of the overall-frequency
table carries the total occurrence count of its number and the percentage
`count / (total_draws * 5) * 100`, and the counts over the whole table sum to
`total_draws * 5`. -/
theorem claim7_overall_frequency_table (hist : List Draw)
    (_hne : hist ≠ []) (h5 : ∀ d ∈ hist, d.numbers.length = 5) :
    ((overallFrequencies hist).map (fun e => e.2.count)).sum = hist.length * 5 ∧
    ∀ e ∈ overallFrequencies hist,
      e.2.count = (allMainNumbers hist).count e.1 ∧
      e.2.percentage = (e.2.count : ℚ) / ((hist.length * 5 : Nat) : ℚ) * 100 := by
  constructor
  · have h1 : (overallFrequencies hist).map (fun e => e.2.count) =
        (dedupFirst (allMainNumbers hist)).map (fun n => (allMainNumbers hist).count n) := by
      rw [overallFrequencies, List.map_map]
      rfl
    rw [h1, sum_count_dedupFirst, allMainNumbers_length hist h5]
  · intro e he
    rw [overallFrequencies] at he
    obtain ⟨n, _, hne2⟩ := List.mem_map.mp he
    subst hne2
    exact ⟨rfl, rfl⟩

/-- Witness for claim C7 at the specification scenario: the 15 slot occurrences of the three
5-number draws. -/
theorem claim7_witness :
    ((overallFrequencies hist3).map (fun e => e.2.count)).sum = 15 := by
  have h := (claim7_overall_frequency_table hist3 (by decide) (by decide)).1
  exact h.trans (by decide)

/-! ### Claim C8 -/

/-- Claim C8, the code evaluated at its failing input: supplying the out-of-range special ball
`0` with valid main numbers is not rejected; the call returns a normal `exists=false`
response instead of the 400 the validation rules require, because the guard tests the
value's truthiness. -/
theorem claim8_special_zero_accepted_not_rejected :
    check hist3 10 25 [1,2,3,4,5] (some 0) =
      .ok ⟨false, 0, [], [1,2,3,4,5], some 0⟩ := by decide

/-! ### Claim C10 -/

/-- Claim C10: with `draw_size` distinct in-range main numbers and `special_ball = 0`, the
truthiness-based range guard is bypassed, no error is raised, `0` is treated as a
supplied special ball, and (the history carrying only positive special balls) the
response is `exists=false` with `special_ball = 0`. -/
theorem claim10_special_zero_bypasses_validation (hist : List Draw)
    (maxMain maxSpecial : Int) (numbers : List Int)
    (hlen : numbers.length = 5)
    (hdup : numbers.dedup.length = 5)
    (hrange : ∀ n ∈ numbers, 1 ≤ n ∧ n ≤ maxMain)
    (hhist : ∀ d ∈ hist, 1 ≤ d.special) :
    check hist maxMain maxSpecial numbers (some 0) =
      .ok ⟨false, 0, [], sortInts numbers, some 0⟩ :=
  check_full_absent hist maxMain maxSpecial numbers 0 hlen hdup hrange
    (specialRangeBad_false_of_zero maxSpecial)
    (fullComboCount_zero_special hist _ hhist)

/-- Witness for claim C10. -/
theorem claim10_witness :
    check hist3 10 25 [1,2,3,4,6] (some 0) =
      .ok ⟨false, 0, [], sortInts [1,2,3,4,6], some 0⟩ :=
  claim10_special_zero_bypasses_validation hist3 10 25 [1,2,3,4,6]
    (by decide) (by decide) (by decide) (by decide)

/-! ### Claim C5 -/

/-- Claim C5: the uniform generator consults at most `maxAttempts` sampled candidates (its
outcome only depends on the sampler below that bound), and when every sampled
candidate collides with a historical full combination the call ends in the
exhaustion error rather than returning any combination. -/
theorem claim5_uniform_bounded_exhaustion (hist : List Draw)
    (sampler : Nat → List Int × Int) (maxAttempts : Nat) :
    ((∀ i, i < maxAttempts →
        fullComboCount hist (sortInts (sampler i).1 ++ [(sampler i).2]) ≠ 0) →
      generateRandom hist sampler maxAttempts = .exhausted) ∧
    (∀ sampler2 : Nat → List Int × Int,
      (∀ i, i < maxAttempts → sampler i = sampler2 i) →
      generateRandom hist sampler maxAttempts = generateRandom hist sampler2 maxAttempts) := by
  constructor
  · intro h
    exact randLoop_exhausted hist sampler maxAttempts 0 (fun j _ h2 => h j (by omega))
  · intro sampler2 h
    exact randLoop_congr hist sampler sampler2 maxAttempts 0 (fun j _ h2 => h j (by omega))

/-- Witness for claim C5: a sampler that always proposes the historical draw `[1,2,3,4,5]`
with special ball 7 exhausts its 3 attempts, and changing the sampler beyond the
bound does not change the outcome. -/
theorem claim5_witness :
    generateRandom hist3 (fun _ => ([1,2,3,4,5], 7)) 3 = .exhausted ∧
    generateRandom hist3 (fun _ => ([1,2,3,4,5], 7)) 3 =
      generateRandom hist3
        (fun i => if i < 3 then ([1,2,3,4,5], 7) else ([6,7,8,9,10], 1)) 3 :=
  ⟨(claim5_uniform_bounded_exhaustion hist3 (fun _ => ([1,2,3,4,5], 7)) 3).1 (by decide),
   (claim5_uniform_bounded_exhaustion hist3 (fun _ => ([1,2,3,4,5], 7)) 3).2
     (fun i => if i < 3 then ([1,2,3,4,5], 7) else ([6,7,8,9,10], 1)) (by decide)⟩

/-! ### Claim C9 -/

/-- Claim C9: any combination the uniform generator returns carries `is_unique = true` and,
checked against the same history with the same profile, reports `exists = false`.
The sampler is assumed to produce what `random.sample(range(1, max_main + 1), 5)` and
`random.randint(1, max_special)` produce: five distinct in-range main numbers and an
in-range special ball. -/
theorem claim9_random_unique_absent_from_history (hist : List Draw)
    (maxMain maxSpecial : Int) (sampler : Nat → List Int × Int)
    (maxAttempts : Nat) (r : RandResult)
    (hvalid : ∀ i, (sampler i).1.length = 5 ∧ (sampler i).1.dedup.length = 5 ∧
      (∀ n ∈ (sampler i).1, 1 ≤ n ∧ n ≤ maxMain) ∧
      1 ≤ (sampler i).2 ∧ (sampler i).2 ≤ maxSpecial)
    (hok : generateRandom hist sampler maxAttempts = .ok r) :
    r.is_unique = true ∧
    check hist maxMain maxSpecial r.main_numbers (some r.special_ball) =
      .ok ⟨false, 0, [], r.main_numbers, some r.special_ball⟩ := by
  obtain ⟨j, hr, habs⟩ := randLoop_ok hist sampler maxAttempts 0 r hok
  obtain ⟨hl5, hd5, hrange, hsb1, hsb2⟩ := hvalid j
  subst hr
  refine ⟨rfl, ?_⟩
  have hsort : sortInts (sortInts (sampler j).1) = sortInts (sampler j).1 :=
    sortInts_idem (sampler j).1
  have h := check_full_absent hist maxMain maxSpecial (sortInts (sampler j).1)
    (sampler j).2
    ((sortInts_length (sampler j).1).trans hl5)
    (((sortInts_perm (sampler j).1).dedup.length_eq).trans hd5)
    (fun n hn => hrange n (mem_sortInts.mp hn))
    (specialRangeBad_false_of_mem hsb1 hsb2)
    (by rw [hsort]; exact habs)
  rw [hsort] at h
  exact h

/-- Witness for claim C9: a sampler proposing the fresh combination `[1,2,3,4,5]` with
special ball 9 returns it as unique, and checking it reports non-existence. -/
theorem claim9_witness :
    (⟨[1,2,3,4,5], 9, true⟩ : RandResult).is_unique = true ∧
    check hist3 10 10 ([1,2,3,4,5] : List Int) (some 9) =
      .ok ⟨false, 0, [], [1,2,3,4,5], some 9⟩ :=
  claim9_random_unique_absent_from_history hist3 10 10
    (fun _ => ([1,2,3,4,5], 9)) 3 ⟨[1,2,3,4,5], 9, true⟩
    (fun _ => by
      show ([1,2,3,4,5] : List Int).length = 5 ∧
        ([1,2,3,4,5] : List Int).dedup.length = 5 ∧
        (∀ n ∈ ([1,2,3,4,5] : List Int), 1 ≤ n ∧ n ≤ 10) ∧
        (1 : Int) ≤ 9 ∧ (9 : Int) ≤ 10
      decide)
    (by decide)

/-! ### Claim C6 -/

/-- Claim C6 as amended: the API `check` endpoint normalizes by sorting, so any two
orderings of the same main numbers give identical outcomes (verdict, frequency,
dates, and echoed fields alike). -/
theorem claim6_amended_api_check_perm_invariant (hist : List Draw)
    (maxMain maxSpecial : Int) (numbers numbers2 : List Int) (special : Option Int)
    (hperm : numbers.Perm numbers2) :
    check hist maxMain maxSpecial numbers special =
      check hist maxMain maxSpecial numbers2 special := by
  unfold check
  rw [hperm.length_eq,
    show mainRangeBad maxMain numbers = mainRangeBad maxMain numbers2 from
      perm_any_eq hperm _,
    show numbers.dedup.length = numbers2.dedup.length from hperm.dedup.length_eq,
    sortInts_eq_of_perm hperm]

/-- Witness for claim C6. -/
theorem claim6_witness :
    check h6 70 25 [2,1,3,4,5] (some 7) = check h6 70 25 [1,2,3,4,5] (some 7) :=
  claim6_amended_api_check_perm_invariant h6 70 25 [2,1,3,4,5] [1,2,3,4,5] (some 7)
    (by decide)

/-- Counterexample for claim C6 as stated: the cited legacy
`MegaMillionsAnalyzer.check_combination` compares the raw ordered tuple, so the same
valid combination reported as existing in one order is reported as absent in
another. -/
theorem claim6_counterexample :
    sortInts [2,1,3,4,5] = sortInts [1,2,3,4,5] ∧
    mmCheck h6 [1,2,3,4,5] 7 = some ⟨true, 1, [10]⟩ ∧
    mmCheck h6 [2,1,3,4,5] 7 = some ⟨false, 0, []⟩ := by decide

/-! ### Claim C2 -/

/-- Claim C2 as amended: with a special ball supplied and the full combination present, the
CSV-backed `check` reports `exists=true`, the full-combination count, and exactly the
full-combination dates in the data frame's stored row order; the DB-backed `check`
reports `exists=true` but counts and dates every draw sharing the main numbers
(newest first), wrong special balls included. -/
theorem claim2_amended_full_match_reporting (hist : List Draw) (rows : List DbRow)
    (maxMain maxSpecial : Int) (numbers : List Int) (sb : Int)
    (hlen : numbers.length = 5)
    (hdup : numbers.dedup.length = 5)
    (hrange : ∀ n ∈ numbers, 1 ≤ n ∧ n ≤ maxMain)
    (hsb1 : 1 ≤ sb) (hsb2 : sb ≤ maxSpecial)
    (hpres : fullComboCount hist (sortInts numbers ++ [sb]) ≠ 0) :
    (check hist maxMain maxSpecial numbers (some sb) =
      .ok ⟨true, fullComboCount hist (sortInts numbers ++ [sb]),
        (hist.filter (fun d => decide (sortInts d.numbers = sortInts numbers) &&
          decide (d.special = sb))).map (fun d => d.date),
        sortInts numbers, some sb⟩) ∧
    (dbExactFound rows numbers (some sb) = true →
      dbCheck rows numbers (some sb) =
        ⟨true, (matchesOf rows numbers).length,
          (matchesOf rows numbers).map (fun r => r.date), sortInts numbers, some sb,
          some ((matchesOf rows numbers).map (fun r => (r.date, r.special)))⟩) := by
  constructor
  · rw [check_full_present hist maxMain maxSpecial numbers sb hlen hdup hrange
      (specialRangeBad_false_of_mem hsb1 hsb2) hpres,
      datesFor_pos_special hist (sortInts numbers) (by omega)]
  · intro hexact
    have hne : (matchesOf rows numbers).length ≠ 0 := by
      rw [dbExactFound, List.any_eq_true] at hexact
      obtain ⟨r, hr, _⟩ := hexact
      intro h0
      rw [List.length_eq_zero] at h0
      rw [h0] at hr
      exact absurd hr (List.not_mem_nil r)
    unfold dbCheck
    rw [if_neg hne, if_neg (by simp [hexact])]

/-- Witness for claim C2 (amended), at the specification scenario and the two-row DB. -/
theorem claim2_witness :
    (check hist3 10 10 [1,2,3,4,5] (some 7) =
      .ok ⟨true, fullComboCount hist3 (sortInts [1,2,3,4,5] ++ [7]),
        (hist3.filter (fun d => decide (sortInts d.numbers = sortInts [1,2,3,4,5]) &&
          decide (d.special = 7))).map (fun d => d.date),
        sortInts [1,2,3,4,5], some 7⟩) ∧
    (dbCheck rows2 [1,2,3,4,5] (some 7) =
      ⟨true, (matchesOf rows2 [1,2,3,4,5]).length,
        (matchesOf rows2 [1,2,3,4,5]).map (fun r => r.date), sortInts [1,2,3,4,5],
        some 7, some ((matchesOf rows2 [1,2,3,4,5]).map (fun r => (r.date, r.special)))⟩) :=
  ⟨(claim2_amended_full_match_reporting hist3 rows2 10 10 [1,2,3,4,5] 7
      (by decide) (by decide) (by decide) (by decide) (by decide) (by decide)).1,
   (claim2_amended_full_match_reporting hist3 rows2 10 10 [1,2,3,4,5] 7
      (by decide) (by decide) (by decide) (by decide) (by decide) (by decide)).2
     (by decide)⟩

/-- Counterexample for claim C2 as stated: querying `[1,2,3,4,5]` with special ball 7
against a DB holding `([1,2,3,4,5], 7)` and `([1,2,3,4,5], 8)` yields frequency 2 and
both dates although only one draw is the exact full combination; and the CSV-backed
`check` returns the dates of `([1,2,3,4,5], 7)` in stored order `[1, 2]`, oldest
first, not newest first. -/
theorem claim2_counterexample :
    (dbCheck rows2 [1,2,3,4,5] (some 7)).frequency = 2 ∧
    (rows2.filter (fun r => decide (r.nums = sortInts [1,2,3,4,5]) &&
      decide (r.special = 7))).length = 1 ∧
    (dbCheck rows2 [1,2,3,4,5] (some 7)).dates = [2, 1] ∧
    (⟨2, [1,2,3,4,5], 8⟩ : DbRow) ∈ rows2 ∧ (8 : Int) ≠ 7 ∧
    check hist3 10 10 [1,2,3,4,5] (some 7) =
      .ok ⟨true, 2, [1, 2], [1,2,3,4,5], some 7⟩ ∧ (1 : Nat) < 2 := by decide

/-! ### Claim C3 -/

theorem counterList_nodup (l : List Int) : (counterList l).Nodup :=
  List.Nodup.map (fun _ _ hab => (Prod.ext_iff.mp hab).1) (nodup_dedupFirst l)

theorem positionTable_nodup (hist : List Draw) (p : Nat) :
    (positionTable hist p).Nodup := counterList_nodup _

/-- In a duplicate-free list, nothing strictly before the first element satisfying a
predicate satisfies it: an occurrence of a satisfying `x` at or before the found
element forces `x` to be that element. -/
theorem find?_first_of_nodup {α : Type} {q : α → Bool} :
    ∀ {l : List α} {a x : α}, l.Nodup → l.find? q = some a → [x, a].Sublist l →
      q x = true → x = a := by
  intro l
  induction l with
  | nil => intro a x _ hf _ _; simp at hf
  | cons y l2 ih =>
    intro a x hnd hf hsub hqx
    rw [List.nodup_cons] at hnd
    by_cases hqy : q y = true
    · rw [List.find?_cons_of_pos _ hqy] at hf
      have hay : a = y := by injection hf with h; exact h.symm
      subst hay
      cases hsub with
      | cons _ h2 =>
        exact absurd (h2.subset (by simp)) hnd.1
      | cons₂ _ h2 => rfl
    · rw [List.find?_cons_of_neg _ (by simp [hqy])] at hf
      cases hsub with
      | cons _ h2 => exact ih hnd.2 hf h2 hqx
      | cons₂ _ h2 => exact absurd hqx hqy

/-- Two distinct members of a list occur in one relative order or the other. -/
theorem pair_sublist_of_mem {α : Type} {a b : α} :
    ∀ {l : List α}, a ∈ l → b ∈ l → a ≠ b →
      [a, b].Sublist l ∨ [b, a].Sublist l := by
  intro l
  induction l with
  | nil => intro ha _ _; exact absurd ha (List.not_mem_nil a)
  | cons x l2 ih =>
    intro ha hb hne
    rcases List.mem_cons.mp ha with hax | ha2
    · subst hax
      have hb2 : b ∈ l2 := by
        rcases List.mem_cons.mp hb with hbx | h
        · exact absurd hbx.symm hne
        · exact h
      exact Or.inl (List.Sublist.cons₂ a (List.singleton_sublist.mpr hb2))
    · rcases List.mem_cons.mp hb with hbx | hb2
      · subst hbx
        exact Or.inr (List.Sublist.cons₂ b (List.singleton_sublist.mpr ha2))
      · rcases ih ha2 hb2 hne with h | h
        · exact Or.inl (List.Sublist.cons _ h)
        · exact Or.inr (List.Sublist.cons _ h)

/-- Eligibility predicate of `pickEligible`, evaluated at an eligible entry. -/
theorem pickPred_true (maxMain : Int) (selected : List Int) {m : Int} {cm : Nat}
    (hmsel : m ∉ selected) (hm1 : 1 ≤ m) (hm2 : m ≤ maxMain) :
    (fun e : Int × Nat => !List.contains selected e.1 &&
      decide (1 ≤ e.1) && decide (e.1 ≤ maxMain)) (m, cm) = true := by
  show (!List.contains selected m && decide (1 ≤ m) && decide (m ≤ maxMain)) = true
  simp only [Bool.and_eq_true, Bool.not_eq_true', decide_eq_true_eq]
  refine ⟨⟨?_, hm1⟩, hm2⟩
  rw [List.contains_eq_any_beq, List.any_eq_false]
  intro x hx
  simp only [beq_iff_eq]
  intro hxm
  exact hmsel (hxm ▸ hx)

theorem sortByPercDesc_perm (total : Nat) (tbl : List (Int × Nat)) :
    (sortByPercDesc total tbl).Perm tbl := List.perm_insertionSort _ _

theorem sortByPercDesc_sorted (total : Nat) (tbl : List (Int × Nat)) :
    List.Pairwise (percGE total) (sortByPercDesc total tbl) :=
  List.sorted_insertionSort _ _

/-- Claim C3 as amended: the number selected for a position is an entry of that
position's table, is not yet selected, lies in range, its percentage is maximal among
all eligible entries, and among eligible entries of equal (maximal) percentage it is
the one occurring first in the table — whose entry order is the order of first
occurrence at that position in the draw history — rather than the smallest number
value.  The construction is a pure function of the tables, hence reproducible. -/
theorem claim3_amended_greedy_pick_maximal (hist : List Draw) (p : Nat) (maxMain : Int)
    (selected : List Int) (n : Int) (c : Nat)
    (hpick : pickEligible maxMain selected
      (sortByPercDesc hist.length (positionTable hist p)) = some (n, c)) :
    (n, c) ∈ positionTable hist p ∧ n ∉ selected ∧ 1 ≤ n ∧ n ≤ maxMain ∧
    (∀ m cm, (m, cm) ∈ positionTable hist p → m ∉ selected → 1 ≤ m → m ≤ maxMain →
      percQ hist.length cm ≤ percQ hist.length c) ∧
    (∀ m cm, (m, cm) ∈ positionTable hist p → m ∉ selected → 1 ≤ m → m ≤ maxMain →
      percQ hist.length cm = percQ hist.length c → (m, cm) ≠ (n, c) →
      [(n, c), (m, cm)].Sublist (positionTable hist p)) := by
  unfold pickEligible at hpick
  have hmem : (n, c) ∈ sortByPercDesc hist.length (positionTable hist p) :=
    List.mem_of_find?_eq_some hpick
  have hmem2 : (n, c) ∈ positionTable hist p :=
    (sortByPercDesc_perm hist.length (positionTable hist p)).mem_iff.mp hmem
  have hq := List.find?_some hpick
  simp only [Bool.and_eq_true, Bool.not_eq_true', decide_eq_true_eq] at hq
  have hqsel : n ∉ selected := by
    intro hmem3
    have := hq.1.1
    rw [List.contains_eq_any_beq] at this
    rw [List.any_eq_false] at this
    exact absurd (by simp : (n == n) = true) (this n hmem3)
  refine ⟨hmem2, hqsel, hq.1.2, hq.2, ?_, ?_⟩
  · intro m cm hm hmsel hm1 hm2
    have hmS : (m, cm) ∈ sortByPercDesc hist.length (positionTable hist p) :=
      (sortByPercDesc_perm hist.length (positionTable hist p)).mem_iff.mpr hm
    rcases find?_sorted_max (sortByPercDesc_sorted hist.length (positionTable hist p))
        hpick (m, cm) hmS (pickPred_true maxMain selected hmsel hm1 hm2) with h | h
    · exact h
    · rw [Prod.mk.injEq] at h
      rw [h.2]
  · intro m cm hm hmsel hm1 hm2 htie hne
    rcases pair_sublist_of_mem hmem2 hm hne.symm with hgood | hbad
    · exact hgood
    · exfalso
      have hr : percGE hist.length (m, cm) (n, c) := le_of_eq htie.symm
      have hsubS : [(m, cm), (n, c)].Sublist
          (sortByPercDesc hist.length (positionTable hist p)) :=
        List.pair_sublist_insertionSort hr hbad
      have hndS : (sortByPercDesc hist.length (positionTable hist p)).Nodup :=
        ((sortByPercDesc_perm hist.length (positionTable hist p)).nodup_iff).mpr
          (positionTable_nodup hist p)
      exact hne (find?_first_of_nodup hndS hpick hsubS
        (pickPred_true maxMain selected hmsel hm1 hm2))

/-- Witness for claim C3 (amended): on `hC3` the pick for position 1 is `(5, 1)`, a
table entry whose percentage dominates the tied eligible entry `(3, 1)` and which
precedes it in the table's first-occurrence order. -/
theorem claim3_witness :
    (5, 1) ∈ positionTable hC3 1 ∧
    percQ hC3.length 1 ≤ percQ hC3.length 1 ∧
    [((5 : Int), (1 : Nat)), (3, 1)].Sublist (positionTable hC3 1) := by
  have h := claim3_amended_greedy_pick_maximal hC3 1 50 [] 5 1 (by decide)
  exact ⟨h.1,
    h.2.2.2.2.1 3 1 (by decide) (by decide) (by decide) (by decide),
    h.2.2.2.2.2 3 1 (by decide) (by decide) (by decide) (by decide) rfl (by decide)⟩

/-- Counterexample for claim C3 as stated: at position 1 the numbers 5, 3, 6 tie with one
occurrence each; the generator selects 5 (the first seen), not the smallest value 3,
which appears in no position of the returned combination. -/
theorem claim3_counterexample :
    (generateOptimized hC3 50 10).map
      (fun r => (r.main_numbers, r.special_ball, r.is_unique)) =
      some ([5, 11, 21, 31, 42], 8, true) ∧
    pickEligible 50 [] (sortByPercDesc hC3.length (positionTable hC3 1)) =
      some (5, 1) ∧
    (3, 1) ∈ positionTable hC3 1 ∧ (3 : Int) < 5 ∧
    (3 : Int) ∉ [5, 11, 21, 31, 42] := by decide

/-! ### Claim C4 -/

/-- Claim C4, the code evaluated at its failing input: in the DB-backed generator, after
stage 1 exhausts, stage 2 queries keys built from the stale `main_numbers_str`
(`[1,2,3,4,6]`, the last stage-1 candidate) instead of the restored main numbers, so
the call returns `([1,2,3,4,5], 2)` flagged `is_unique = true` although that exact
combination is present in the draw history. -/
theorem claim4_db_repair_stale_key_eval :
    (generateOptimizedDb exPos [1] exRows 6 2).map
      (fun r => (r.main_numbers, r.special_ball, r.is_unique)) =
      some ([1, 2, 3, 4, 5], 2, true) ∧
    0 < dbDrawCount exRows [1, 2, 3, 4, 5] 2 := by decide

end LotteryStats
